import Mathlib

/-!
# ascoltatori: in-process bus and MQTT adapter

A shallow embedding of `lib/memory_ascoltatore.js` and `lib/mqtt_ascoltatore.js`.

* A JavaScript string is a `List Char`; a callback object is identified by a number.
* Every operation returns a `Res`: the state it leaves behind, the calls and
  notifications it made (in order), and the exception it raised, if any.  The state
  is kept on a raise, because a JavaScript `throw` does not undo earlier effects.
* Callbacks are observers: invoking one is recorded; it returns normally and does
  not call back into the bus.

## The platform

`RegExp`, `EventEmitter`, `JSON` and `Math.random` belong to the platform, not to the
repository, and are modelled as far as the two files use them.

* `RegExp`: a fragment of the syntax, see below; a source text outside the fragment
  is reported as such, and nothing is stated about it.
* `EventEmitter`: a table of listeners, kept in the order of registration; `emit`
  invokes the listeners of the event in that order, `removeListener` removes one
  instance, the most recently added one.  The emitter's own events are left out: the
  topics `error` (whose `emit` throws when nobody listens), `newListener` and
  `removeListener` (emitted by the emitter itself when a listener comes or goes) are
  treated like every other topic, so the statements are about topics other than
  these three names.
* `Math.random`: the id that `buildMessageId` returns is an argument of the call.
-/

namespace Ascoltatori

/-! ## Strings -/

/-- A JavaScript string. -/
abbrev Str := List Char

/-- The character `*`, the wildcard marker of the bus. -/
def star : Char := Char.ofNat 42

/-- The JavaScript call `s.replace(c, r)` with a one-character string pattern `c`:
only the first occurrence is replaced. -/
def replaceFirst (c : Char) (r : Str) : Str → Str
  | [] => []
  | d :: ds => if d = c then r ++ ds else d :: replaceFirst c r ds

/-- The function `containsWildcard` of `memory_ascoltatore.js`:
`topic.indexOf("*") >= 0`. -/
def containsWildcard (topic : Str) : Bool :=
  decide (star ∈ topic)

/-! ## Regular expressions (the platform's `RegExp`, a fragment)

The fragment has pattern characters, `.`, and the quantifiers `*`, `+`, `?`, each
optionally followed by the lazy marker `?`.  A source text that uses any other
syntax character is reported as `Err.outsideModel`: nothing is claimed for it. -/

/-- What an operation can raise. -/
inductive Err where
  /-- the error of `_raiseIfClosed` -/
  | closed
  /-- a `SyntaxError` of `new RegExp` -/
  | syntaxError
  /-- a regular expression outside the modelled fragment -/
  | outsideModel
  /-- a `TypeError`: a method called on `undefined` -/
  | typeError
  deriving DecidableEq, Repr

/-- A line terminator, which `.` does not match: LF, CR, U+2028, U+2029. -/
def isLineTerminator (c : Char) : Bool :=
  c.toNat = 10 || c.toNat = 13 || c.toNat = 8232 || c.toNat = 8233

/-- The quantifier characters `*`, `+`, `?`. -/
def isQuantifierChar (c : Char) : Bool :=
  c.toNat = 42 || c.toNat = 43 || c.toNat = 63

/-- The other syntax characters of a regular expression, which
the fragment leaves out: `$ ( ) [ \ ] ^ { | }`. -/
def isOtherSyntaxChar (c : Char) : Bool :=
  c.toNat = 36 || c.toNat = 40 || c.toNat = 41 || c.toNat = 91 || c.toNat = 92 ||
  c.toNat = 93 || c.toNat = 94 || c.toNat = 123 || c.toNat = 124 || c.toNat = 125

inductive Atom where
  | chr (c : Char)
  | any
  deriving DecidableEq, Repr

inductive Quant where
  | one
  | plus
  | star
  | opt
  deriving DecidableEq, Repr

structure Term where
  atom : Atom
  quant : Quant
  deriving DecidableEq, Repr

/-- A compiled regular expression: a sequence of quantified atoms. -/
abbrev RegExp := List Term

/-- Where the parser stands: nothing to quantify, right after an atom, or right
after a quantifier (where only the lazy marker `?` may follow). -/
inductive Mode where
  | start
  | atom
  | quant
  deriving DecidableEq, Repr

def quantOf (c : Char) : Quant :=
  if c.toNat = 42 then Quant.star else if c.toNat = 43 then Quant.plus else Quant.opt

/-- Parse the rest of a source text; `acc` holds the terms read so far, last first. -/
def compileFrom : Mode → List Term → Str → Except Err RegExp
  | _, acc, [] => Except.ok acc.reverse
  | m, acc, c :: cs =>
    if isQuantifierChar c then
      match m, acc with
      | Mode.atom, t :: ts => compileFrom Mode.quant (⟨t.atom, quantOf c⟩ :: ts) cs
      | Mode.quant, _ =>
        if c.toNat = 63 then compileFrom Mode.start acc cs else Except.error Err.syntaxError
      | _, _ => Except.error Err.syntaxError
    else if isOtherSyntaxChar c then Except.error Err.outsideModel
    else if c.toNat = 46 then compileFrom Mode.atom (⟨Atom.any, Quant.one⟩ :: acc) cs
    else compileFrom Mode.atom (⟨Atom.chr c, Quant.one⟩ :: acc) cs

/-- The constructor `new RegExp(source)`. -/
def RegExp.compile (source : Str) : Except Err RegExp :=
  compileFrom Mode.start [] source

def Atom.accepts : Atom → Char → Bool
  | Atom.chr c, d => decide (c = d)
  | Atom.any, d => !isLineTerminator d

/-- Zero or more characters accepted by `a`, then the continuation `k`. -/
def matchStar (a : Atom) (k : Str → Bool) : Str → Bool
  | [] => k []
  | c :: cs => k (c :: cs) || (a.accepts c && matchStar a k cs)

def matchTerm (t : Term) (k : Str → Bool) (s : Str) : Bool :=
  match t.quant, s with
  | Quant.one, [] => false
  | Quant.one, c :: cs => t.atom.accepts c && k cs
  | Quant.plus, [] => false
  | Quant.plus, c :: cs => t.atom.accepts c && matchStar t.atom k cs
  | Quant.star, s => matchStar t.atom k s
  | Quant.opt, [] => k []
  | Quant.opt, c :: cs => k (c :: cs) || (t.atom.accepts c && k cs)

/-- The expression matches a prefix of the string. -/
def matchHere : RegExp → Str → Bool
  | [], _ => true
  | t :: ts, s => matchTerm t (matchHere ts) s

/-- The call `e.match(regexp)` read as a condition: the expression matches
somewhere in the string (no flags, so the search is unanchored). -/
def RegExp.test (r : RegExp) : Str → Bool
  | [] => matchHere r []
  | c :: cs => matchHere r (c :: cs) || RegExp.test r cs

/-! ## Values, observations, results -/

/-- A message: a JavaScript value. -/
inductive Value where
  | undefined
  | null
  | bool (b : Bool)
  | num (n : Int)
  | str (s : Str)
  deriving DecidableEq, Repr

/-- Identity of a callback object. -/
abbrev Cb := Nat

/-- What an operation of the in-process bus does that can be seen from outside. -/
inductive Obs where
  /-- a subscriber is invoked: `callback(topic, message)` -/
  | call (callback : Cb) (topic : Str) (message : Value)
  /-- the bus emits `newTopic` -/
  | newTopic (topic : Str)
  /-- the bus emits `closed` -/
  | closed
  /-- the completion callback `done` is invoked -/
  | done (d : Nat)
  deriving DecidableEq, Repr

/-- The outcome of an operation: the state afterwards, what it did that can be seen
(in order), and the exception it raised, if any. -/
structure Res (σ ω : Type) where
  state : σ
  obs : List ω
  raised : Option Err
  deriving Repr

/-- Modelled from the spec: `util.wrap` is missing from the sources; `wrap(done)()`
signals completion, that is, it invokes `done` when one was given. -/
def wrap : Option Nat → List Obs
  | none => []
  | some d => [Obs.done d]

/-! ## The in-process bus -/

/-- An event emitter's listener array with one instance of `x` removed, the most
recently added one (`removeListener` of the platform's `EventEmitter`). -/
def removeLast {α : Type} [DecidableEq α] (l : List α) (x : α) : List α :=
  (l.reverse.erase x).reverse

/-- The closure `handler` that a wildcard `subscribe` creates: a function object
(`id` is its identity) that closes over `regexp` and `callback`. -/
structure Handler where
  id : Nat
  regexp : RegExp
  callback : Cb
  deriving DecidableEq, Repr

/-- The property `_ascoltatori_global_handler` of the callback objects. -/
abbrev Props := List (Cb × Handler)

def Props.get (p : Props) (callback : Cb) : Option Handler :=
  (p.find? (fun e => e.1 = callback)).map Prod.snd

def Props.put (p : Props) (callback : Cb) (h : Handler) : Props :=
  (callback, h) :: p.filter (fun e => e.1 ≠ callback)

/-- A `MemoryAscoltatore`.
* `closed`: the flag of `AbstractAscoltatore` that `_raiseIfClosed` reads;
* `subs`: the topic registry `_set`, in insertion order;
* `event`: the listeners of the emitter `_event`, as (event name, callback) in the
  order of registration, so the listeners of one topic are in insertion order;
* `onNewTopic`: the listeners that `subscribe` registered on the bus itself for
  `newTopic`;
* `props`: the handler stored on each callback object;
* `fresh`: the identity the next function object gets. -/
structure MemoryAscoltatore where
  closed : Bool
  subs : List Str
  event : List (Str × Cb)
  onNewTopic : List Handler
  props : Props
  fresh : Nat
  deriving DecidableEq, Repr

namespace MemoryAscoltatore

/-- The bus that `new MemoryAscoltatore()` returns. -/
def create : MemoryAscoltatore :=
  { closed := false, subs := [], event := [], onNewTopic := [], props := [], fresh := 0 }

/-- Modelled from the spec: `SubsCounter.include` is missing from the sources;
`contains(topic)` of the topic registry. -/
def includes (s : MemoryAscoltatore) (topic : Str) : Bool :=
  decide (topic ∈ s.subs)

/-- Modelled from the spec: `SubsCounter.add` is missing from the sources;
`register(topic)` adds the topic and is idempotent. -/
def add (s : MemoryAscoltatore) (topic : Str) : MemoryAscoltatore :=
  if topic ∈ s.subs then s else { s with subs := s.subs ++ [topic] }

/-- The listeners of `_event` for `topic`, in insertion order. -/
def listeners (s : MemoryAscoltatore) (topic : Str) : List Cb :=
  (s.event.filter (fun e => e.1 = topic)).map Prod.snd

/-- The body of `handler`:
`if (e.match(regexp)) that._event.on(e, callback)`. -/
def runHandler (h : Handler) (s : MemoryAscoltatore) (e : Str) : MemoryAscoltatore :=
  if h.regexp.test e then { s with event := s.event ++ [(e, h.callback)] } else s

/-- The call `this.emit("newTopic", topic)`: the listeners run in the order of
registration. -/
def emitNewTopic (s : MemoryAscoltatore) (topic : Str) : MemoryAscoltatore :=
  s.onNewTopic.foldl (fun acc h => runHandler h acc topic) s

/-- The shared step of `subscribe` and `publish`:
`if (!this._set.include(topic)) { this._set.add(topic); this.emit("newTopic", topic); }`. -/
def noteTopic (s : MemoryAscoltatore) (topic : Str) : MemoryAscoltatore × List Obs :=
  if s.includes topic then (s, [])
  else (emitNewTopic (s.add topic) topic, [Obs.newTopic topic])

def subscribe (s : MemoryAscoltatore) (topic : Str) (callback : Cb) (done : Option Nat) :
    Res MemoryAscoltatore Obs :=
  if s.closed then ⟨s, [], some Err.closed⟩
  else if containsWildcard topic then
    match RegExp.compile (replaceFirst star [Char.ofNat 46, Char.ofNat 43] topic) with
    | Except.error e => ⟨s, [], some e⟩
    | Except.ok regexp =>
      let handler : Handler := ⟨s.fresh, regexp, callback⟩
      let s1 := { s with fresh := s.fresh + 1, props := s.props.put callback handler }
      let s2 := s1.subs.foldl (fun acc e => runHandler handler acc e) s1
      ⟨{ s2 with onNewTopic := s2.onNewTopic ++ [handler] }, wrap done, none⟩
  else
    let r := noteTopic s topic
    ⟨{ r.1 with event := r.1.event ++ [(topic, callback)] }, r.2 ++ wrap done, none⟩

def publish (s : MemoryAscoltatore) (topic : Str) (message : Value) (done : Option Nat) :
    Res MemoryAscoltatore Obs :=
  if s.closed then ⟨s, [], some Err.closed⟩
  else
    let r := noteTopic s topic
    ⟨r.1, r.2 ++ (r.1.listeners topic).map (fun cb => Obs.call cb topic message) ++ wrap done,
      none⟩

/-- The visitor of `unsubscribe`:
`if (e.match(regexp)) that._event.removeListener(e, callback)`. -/
def detach (regexp : RegExp) (callback : Cb) (s : MemoryAscoltatore) (e : Str) :
    MemoryAscoltatore :=
  if regexp.test e then { s with event := removeLast s.event (e, callback) } else s

def unsubscribe (s : MemoryAscoltatore) (topic : Str) (callback : Cb) (done : Option Nat) :
    Res MemoryAscoltatore Obs :=
  if s.closed then ⟨s, [], some Err.closed⟩
  else
    match s.props.get callback with
    | some handler =>
      let s1 := { s with onNewTopic := removeLast s.onNewTopic handler }
      match RegExp.compile (replaceFirst star [Char.ofNat 46, Char.ofNat 43] topic) with
      | Except.error e => ⟨s1, [], some e⟩
      | Except.ok regexp =>
        ⟨s1.subs.foldl (fun acc e => detach regexp callback acc e) s1, wrap done, none⟩
    | none => ⟨{ s with event := removeLast s.event (topic, callback) }, wrap done, none⟩

/-- The method `close`.  Modelled from the spec: `AbstractAscoltatore` and `util.defer`
are missing from the sources; emitting `closed` moves the bus to the state `closed`,
and `defer(done)` signals completion (after the call has returned). -/
def close (s : MemoryAscoltatore) (done : Option Nat) : Res MemoryAscoltatore Obs :=
  ⟨{ s with subs := [], event := [], closed := true }, Obs.closed :: wrap done, none⟩

end MemoryAscoltatore

/-! ## The MQTT adapter -/

/-- A payload on the wire: the JSON text of a value, or a text that is not JSON. -/
inductive Payload where
  | json (v : Value)
  | malformed
  deriving DecidableEq, Repr

/-- The platform's `JSON.stringify`, on the values a message can be. -/
def stringify (v : Value) : Payload := Payload.json v

/-- The platform's `JSON.parse`; a text that is not JSON raises a `SyntaxError`. -/
def parse : Payload → Except Err Value
  | Payload.json v => Except.ok v
  | Payload.malformed => Except.error Err.syntaxError

/-- Truthiness of a JavaScript value. -/
def truthy : Value → Bool
  | Value.undefined => false
  | Value.null => false
  | Value.bool b => b
  | Value.num n => decide (n ≠ 0)
  | Value.str s => !s.isEmpty

/-- The expression `message || true`. -/
def orTrue (message : Value) : Value :=
  if truthy message then message else Value.bool true

/-- A request handed to the broker client. -/
inductive Request where
  | connect
  | subscribe (topic : Str) (messageId : Nat) (qos : Nat)
  | publish (topic : Str) (messageId : Nat) (qos : Nat) (payload : Payload)
  | unsubscribe (topic : Str) (messageId : Nat)
  | disconnect
  deriving DecidableEq, Repr

/-- The acknowledgement events that `_wrapEvent` listens to. -/
inductive Ack where
  | suback
  | unsuback
  deriving DecidableEq, Repr

/-- The closure `wrapper` of `_wrapEvent`: a function object (`id` is its identity)
registered for `event`, closing over `messageId` and `done`. -/
structure Wrapper where
  id : Nat
  messageId : Nat
  event : Ack
  done : Option Nat
  deriving DecidableEq, Repr

/-- The client object of the `mqtt` package, as far as the adapter uses it: the
listeners the adapter added after bring-up, and the requests it was handed. -/
structure Client where
  wrappers : List Wrapper
  onClose : List (Option Nat)
  sent : List Request
  deriving DecidableEq, Repr

/-- The field `_client`: not yet set, set, or deleted (the client object lives on
and may still emit events). -/
inductive Conn where
  | absent
  | live (c : Client)
  | dropped (c : Client)
  deriving DecidableEq, Repr

/-- A packet event of the client object. -/
inductive Packet where
  | connack (returnCode : Nat)
  | publish (topic : Str) (payload : Payload)
  | suback (messageId : Nat)
  | unsuback (messageId : Nat)
  | close
  | error (e : Nat)
  deriving DecidableEq, Repr

inductive ErrorInfo where
  | connack (returnCode : Nat)
  | transport (e : Nat)
  deriving DecidableEq, Repr

/-- What an operation of the adapter does that can be seen from outside. -/
inductive AObs where
  /-- something the owned in-process bus did -/
  | bus (o : Obs)
  | ready
  | error (info : ErrorInfo)
  | closed
  /-- the adapter forwards the `newTopic` of the owned bus -/
  | newTopic (topic : Str)
  /-- a completion callback `done` is invoked -/
  | done (d : Nat)
  deriving DecidableEq, Repr

/-- What the owned bus did, and the forwarded `newTopic` (the constructor binds
`this.emit("newTopic")` to the bus's `newTopic`). -/
def liftObs : List Obs → List AObs
  | [] => []
  | Obs.newTopic t :: os => AObs.bus (Obs.newTopic t) :: AObs.newTopic t :: liftObs os
  | o :: os => AObs.bus o :: liftObs os

def awrap : Option Nat → List AObs
  | none => []
  | some d => [AObs.done d]

/-- An `MQTTAscoltatore`.
* `closed`: the flag of `AbstractAscoltatore` that `_raiseIfClosed` reads;
* `client`: the field `_client`;
* `ascoltatore`: the owned in-process bus `_ascoltatore`;
* `fresh`: the identity the next `wrapper` function object gets. -/
structure MQTTAscoltatore where
  closed : Bool
  client : Conn
  ascoltatore : MemoryAscoltatore
  fresh : Nat
  deriving DecidableEq, Repr

namespace MQTTAscoltatore

/-- The adapter that `new MQTTAscoltatore(opts)` returns, before `createClient`
has called back. -/
def create : MQTTAscoltatore :=
  { closed := false, client := Conn.absent, ascoltatore := MemoryAscoltatore.create, fresh := 0 }

/-- The callback of `createClient` in `_startConn`, called without an error:
it stores the client and sends `connect`. -/
def started (a : MQTTAscoltatore) : MQTTAscoltatore :=
  { a with client := Conn.live ⟨[], [], [Request.connect]⟩ }

/-- The method `_wrapEvent`, on the client object. -/
def wrapEvent (c : Client) (fresh : Nat) (messageId : Nat) (event : Ack) (done : Option Nat) :
    Client :=
  { c with wrappers := c.wrappers ++ [⟨fresh, messageId, event, done⟩] }

/-- The method `subscribe`; `messageId` is what `buildMessageId` returned. -/
def subscribe (a : MQTTAscoltatore) (messageId : Nat) (topic : Str) (callback : Cb)
    (done : Option Nat) : Res MQTTAscoltatore AObs :=
  if a.closed then ⟨a, [], some Err.closed⟩
  else
    match a.client with
    | Conn.live c =>
      let c1 := { c with sent := c.sent ++
        [Request.subscribe (replaceFirst star [Char.ofNat 35] topic) messageId 0] }
      let c2 := wrapEvent c1 a.fresh messageId Ack.suback done
      let r := a.ascoltatore.subscribe topic callback none
      ⟨{ a with client := Conn.live c2, fresh := a.fresh + 1, ascoltatore := r.state },
        liftObs r.obs, r.raised⟩
    | _ => ⟨a, [], some Err.typeError⟩

/-- The method `publish`; `messageId` is what `buildMessageId` returned.
Completion is signalled from a timer, after the call has returned. -/
def publish (a : MQTTAscoltatore) (messageId : Nat) (topic : Str) (message : Value)
    (done : Option Nat) : Res MQTTAscoltatore AObs :=
  if a.closed then ⟨a, [], some Err.closed⟩
  else
    match a.client with
    | Conn.live c =>
      ⟨{ a with client := Conn.live { c with sent := c.sent ++
          [Request.publish topic messageId 0 (stringify (orTrue message))] } },
        awrap done, none⟩
    | _ => ⟨a, [], some Err.typeError⟩

/-- The method `unsubscribe`; `messageId` is what `buildMessageId` returned. -/
def unsubscribe (a : MQTTAscoltatore) (messageId : Nat) (topic : Str) (callback : Cb)
    (done : Option Nat) : Res MQTTAscoltatore AObs :=
  if a.closed then ⟨a, [], some Err.closed⟩
  else
    match a.client with
    | Conn.live c =>
      let c1 := { c with sent := c.sent ++ [Request.unsubscribe topic messageId] }
      let c2 := wrapEvent c1 a.fresh messageId Ack.unsuback done
      let r := a.ascoltatore.unsubscribe topic callback none
      ⟨{ a with client := Conn.live c2, fresh := a.fresh + 1, ascoltatore := r.state },
        liftObs r.obs, r.raised⟩
    | _ => ⟨a, [], some Err.typeError⟩

/-- The method `close`.  Modelled from the spec: `AbstractAscoltatore` is missing from
the sources; emitting `closed` moves the adapter to the state `closed`. -/
def close (a : MQTTAscoltatore) (done : Option Nat) : Res MQTTAscoltatore AObs :=
  if a.closed then ⟨a, awrap done ++ [AObs.closed], none⟩
  else
    let r := a.ascoltatore.close none
    match a.client with
    | Conn.live c =>
      ⟨{ a with closed := true, ascoltatore := r.state,
                client := Conn.live { c with onClose := c.onClose ++ [done],
                                             sent := c.sent ++ [Request.disconnect] } },
        liftObs r.obs ++ [AObs.closed], none⟩
    | _ => ⟨{ a with ascoltatore := r.state }, liftObs r.obs, some Err.typeError⟩

/-- The listeners of an acknowledgement event run on a packet carrying `messageId`:
each `wrapper` whose id is the packet's removes itself from `_client` and signals
completion.  `ws` is the listener array as it was when the event was emitted. -/
def runWrappers (event : Ack) (messageId : Nat) :
    List Wrapper → MQTTAscoltatore → Res MQTTAscoltatore AObs
  | [], a => ⟨a, [], none⟩
  | w :: ws, a =>
    if w.event = event ∧ w.messageId = messageId then
      match a.client with
      | Conn.live c =>
        let r := runWrappers event messageId ws
          { a with client := Conn.live { c with wrappers := removeLast c.wrappers w } }
        ⟨r.state, awrap w.done ++ r.obs, r.raised⟩
      | _ => ⟨a, [], some Err.typeError⟩
    else runWrappers event messageId ws a

/-- The listeners of the client's `close` event, registered by `close`:
`delete that._client; wrap(done)()`. -/
def runOnClose : List (Option Nat) → MQTTAscoltatore → Res MQTTAscoltatore AObs
  | [], a => ⟨a, [], none⟩
  | d :: ds, a =>
    let a1 := match a.client with
      | Conn.live c => { a with client := Conn.dropped c }
      | _ => a
    let r := runOnClose ds a1
    ⟨r.state, awrap d ++ r.obs, r.raised⟩

/-- The client object, whether or not `_client` still refers to it. -/
def clientObject (a : MQTTAscoltatore) : Option Client :=
  match a.client with
  | Conn.absent => none
  | Conn.live c => some c
  | Conn.dropped c => some c

/-- The client object emits a packet event: the listeners of `_startConn`,
`_wrapEvent` and `close` run. -/
def receive (a : MQTTAscoltatore) (p : Packet) : Res MQTTAscoltatore AObs :=
  match a.clientObject with
  | none => ⟨a, [], none⟩
  | some c =>
    match p with
    | Packet.connack returnCode =>
      if returnCode = 0 then ⟨a, [AObs.ready], none⟩
      else ⟨a, [AObs.error (ErrorInfo.connack returnCode)], none⟩
    | Packet.publish topic payload =>
      match parse payload with
      | Except.error e => ⟨a, [], some e⟩
      | Except.ok message =>
        let r := a.ascoltatore.publish topic message none
        ⟨{ a with ascoltatore := r.state }, liftObs r.obs, r.raised⟩
    | Packet.suback messageId => runWrappers Ack.suback messageId c.wrappers a
    | Packet.unsuback messageId => runWrappers Ack.unsuback messageId c.wrappers a
    | Packet.close => runOnClose c.onClose a
    | Packet.error e =>
      ⟨{ a with client := Conn.dropped c }, [AObs.error (ErrorInfo.transport e)], none⟩

end MQTTAscoltatore

/-! ## Vocabulary of the statements -/

/-- A call of `subscribe`, `publish` or `unsubscribe` on the in-process bus. -/
inductive Call where
  | subscribe (topic : Str) (callback : Cb) (done : Option Nat)
  | publish (topic : Str) (message : Value) (done : Option Nat)
  | unsubscribe (topic : Str) (callback : Cb) (done : Option Nat)
  deriving DecidableEq, Repr

/-- The bus performs one call. -/
def MemoryAscoltatore.call (s : MemoryAscoltatore) : Call → Res MemoryAscoltatore Obs
  | Call.subscribe t cb d => s.subscribe t cb d
  | Call.publish t m d => s.publish t m d
  | Call.unsubscribe t cb d => s.unsubscribe t cb d

/-- The bus performs the calls one after the other (a caller that gets an exception
goes on with its next call); the result is the last state and everything observed. -/
def MemoryAscoltatore.run (s : MemoryAscoltatore) : List Call → MemoryAscoltatore × List Obs
  | [] => (s, [])
  | c :: cs => (((s.call c).state.run cs).1, (s.call c).obs ++ ((s.call c).state.run cs).2)

/-- The expression that matches the characters of `l` literally. -/
def plainTerms (l : Str) : RegExp :=
  l.map (fun c => ⟨Atom.chr c, Quant.one⟩)

namespace MemoryAscoltatore

/-- The entries that the handlers `hs` add to `_event` when they see `topic`. -/
def attach (hs : List Handler) (topic : Str) : List (Str × Cb) :=
  (hs.filter (fun h => h.regexp.test topic)).map (fun h => (topic, h.callback))

/-- The invocations of `callback` among the observations, in order. -/
def callsOf (callback : Cb) (obs : List Obs) : List Obs :=
  obs.filter (fun o => match o with
    | Obs.call c _ _ => decide (c = callback)
    | _ => false)

/-- The callback is attached nowhere: it is on no delivery channel and no
first-seen listener delivers to it. -/
def Unattached (s : MemoryAscoltatore) (callback : Cb) : Prop :=
  (∀ e ∈ s.event, e.2 ≠ callback) ∧ (∀ h ∈ s.onNewTopic, h.callback ≠ callback)

instance (s : MemoryAscoltatore) (callback : Cb) : Decidable (Unattached s callback) := by
  unfold Unattached
  exact inferInstance

end MemoryAscoltatore

/-- Something that happens to the adapter: a call of `subscribe`, `publish` or
`unsubscribe` (with the id that `buildMessageId` returns for it), or a packet event
of the client object. -/
inductive AStep where
  | subscribe (messageId : Nat) (topic : Str) (callback : Cb) (done : Option Nat)
  | publish (messageId : Nat) (topic : Str) (message : Value) (done : Option Nat)
  | unsubscribe (messageId : Nat) (topic : Str) (callback : Cb) (done : Option Nat)
  | receive (p : Packet)
  deriving DecidableEq, Repr

def AStep.isCall : AStep → Bool
  | AStep.receive _ => false
  | _ => true

def MQTTAscoltatore.step (a : MQTTAscoltatore) : AStep → Res MQTTAscoltatore AObs
  | AStep.subscribe i t cb d => a.subscribe i t cb d
  | AStep.publish i t m d => a.publish i t m d
  | AStep.unsubscribe i t cb d => a.unsubscribe i t cb d
  | AStep.receive p => a.receive p

/-- The adapter goes through the steps one after the other; the result is the last
state and everything observed. -/
def MQTTAscoltatore.run (a : MQTTAscoltatore) : List AStep → MQTTAscoltatore × List AObs
  | [] => (a, [])
  | c :: cs => (((a.step c).state.run cs).1, (a.step c).obs ++ ((a.step c).state.run cs).2)

/-- The acknowledgement packet of kind `event` that carries `messageId`. -/
def ackPacket : Ack → Nat → Packet
  | Ack.suback, i => Packet.suback i
  | Ack.unsuback, i => Packet.unsuback i

/-- The pending entry awaits an acknowledgement of kind `event` with id `messageId`. -/
def Wrapper.awaits (w : Wrapper) (event : Ack) (messageId : Nat) : Bool :=
  decide (w.event = event ∧ w.messageId = messageId)

/-- The completion callbacks of the pending entries `ws`, in order. -/
def completions : List Wrapper → List AObs
  | [] => []
  | w :: ws => awrap w.done ++ completions ws

namespace MemoryAscoltatore

end MemoryAscoltatore

def Call.isPublish : Call → Bool
  | Call.publish _ _ _ => true
  | _ => false

namespace MemoryAscoltatore

/-- The first-seen listeners that deliver to `cb`, in the order of registration. -/
def handlersOf (s : MemoryAscoltatore) (cb : Cb) : List Handler :=
  s.onNewTopic.filter (fun h => decide (h.callback = cb))

/-- The number of first-seen listeners that deliver to `cb` and match the topic `e`. -/
def matching (s : MemoryAscoltatore) (cb : Cb) (e : Str) : Nat :=
  ((s.handlersOf cb).filter (fun h => h.regexp.test e)).length

/-- The bus is open, its registry has no duplicates, and `cb` is attached to the
delivery channel of a known topic once for each of its first-seen listeners that
matches the topic, and to no channel of a topic that is not known. -/
def Tidy (s : MemoryAscoltatore) (cb : Cb) : Prop :=
  s.closed = false ∧ s.subs.Nodup ∧
    ∀ e, s.event.count (e, cb) = if e ∈ s.subs then s.matching cb e else 0

end MemoryAscoltatore

/-! ## Lemmas on the in-process bus -/

namespace MemoryAscoltatore

theorem foldl_runHandler (topic : Str) (hs : List Handler) (s : MemoryAscoltatore) :
    hs.foldl (fun acc h => runHandler h acc topic) s =
      { s with event := s.event ++ attach hs topic } := by
  induction hs generalizing s with
  | nil => simp [attach]
  | cons h hs ih =>
    simp only [List.foldl_cons, ih]
    by_cases hm : h.regexp.test topic = true
    · simp [runHandler, attach, hm]
    · simp [runHandler, attach, hm]

theorem emitNewTopic_eq (s : MemoryAscoltatore) (topic : Str) :
    emitNewTopic s topic = { s with event := s.event ++ attach s.onNewTopic topic } := by
  simp [emitNewTopic, foldl_runHandler]

theorem noteTopic_eq (s : MemoryAscoltatore) (topic : Str) :
    noteTopic s topic =
      if topic ∈ s.subs then (s, [])
      else ({ s with subs := s.subs ++ [topic],
                     event := s.event ++ attach s.onNewTopic topic }, [Obs.newTopic topic]) := by
  by_cases h : topic ∈ s.subs
  · simp [noteTopic, includes, h]
  · simp [noteTopic, includes, h, emitNewTopic_eq, add]

theorem foldl_forEach_handler (h : Handler) (ts : List Str) (s : MemoryAscoltatore) :
    ts.foldl (fun acc e => runHandler h acc e) s =
      { s with event := s.event ++
          (ts.filter (fun e => h.regexp.test e)).map (fun e => (e, h.callback)) } := by
  induction ts generalizing s with
  | nil => simp
  | cons t ts ih =>
    simp only [List.foldl_cons, ih]
    by_cases hm : h.regexp.test t = true
    · simp [runHandler, hm]
    · simp [runHandler, hm]

theorem callsOf_append (cb : Cb) (a b : List Obs) :
    callsOf cb (a ++ b) = callsOf cb a ++ callsOf cb b := by
  simp [callsOf]

theorem callsOf_wrap (cb : Cb) (d : Option Nat) : callsOf cb (wrap d) = [] := by
  cases d <;> simp [callsOf, wrap]

theorem callsOf_map_call (cb : Cb) (topic : Str) (m : Value) (l : List Cb) :
    callsOf cb (l.map (fun c => Obs.call c topic m)) =
      (l.filter (fun c => decide (c = cb))).map (fun c => Obs.call c topic m) := by
  induction l with
  | nil => simp [callsOf]
  | cons c l ih =>
    simp only [callsOf] at ih
    by_cases hc : c = cb
    · simp [callsOf, hc, ih]
    · simp [callsOf, hc, ih]

theorem mem_attach {hs : List Handler} {topic : Str} {e : Str × Cb} (he : e ∈ attach hs topic) :
    e.1 = topic ∧ ∃ h ∈ hs, h.callback = e.2 ∧ h.regexp.test topic = true := by
  simp only [attach, List.mem_map, List.mem_filter] at he
  obtain ⟨h, ⟨hh, hm⟩, rfl⟩ := he
  exact ⟨rfl, h, hh, rfl, hm⟩

end MemoryAscoltatore

namespace MemoryAscoltatore

theorem noteTopic_closed (s : MemoryAscoltatore) (t : Str) :
    (noteTopic s t).1.closed = s.closed := by
  rw [noteTopic_eq]; split <;> rfl

theorem noteTopic_onNewTopic (s : MemoryAscoltatore) (t : Str) :
    (noteTopic s t).1.onNewTopic = s.onNewTopic := by
  rw [noteTopic_eq]; split <;> rfl

theorem noteTopic_props (s : MemoryAscoltatore) (t : Str) :
    (noteTopic s t).1.props = s.props := by
  rw [noteTopic_eq]; split <;> rfl

theorem noteTopic_fresh (s : MemoryAscoltatore) (t : Str) :
    (noteTopic s t).1.fresh = s.fresh := by
  rw [noteTopic_eq]; split <;> rfl

theorem noteTopic_subs (s : MemoryAscoltatore) (t : Str) :
    (noteTopic s t).1.subs = if t ∈ s.subs then s.subs else s.subs ++ [t] := by
  rw [noteTopic_eq]; split <;> rfl

theorem noteTopic_event (s : MemoryAscoltatore) (t : Str) :
    (noteTopic s t).1.event =
      if t ∈ s.subs then s.event else s.event ++ attach s.onNewTopic t := by
  rw [noteTopic_eq]; split <;> rfl

theorem noteTopic_obs (s : MemoryAscoltatore) (t : Str) :
    (noteTopic s t).2 = if t ∈ s.subs then [] else [Obs.newTopic t] := by
  rw [noteTopic_eq]; split <;> rfl

theorem mem_noteTopic_subs (s : MemoryAscoltatore) (t : Str) : t ∈ (noteTopic s t).1.subs := by
  rw [noteTopic_subs]; split
  · assumption
  · simp

theorem noteTopic_of_mem {s : MemoryAscoltatore} {t : Str} (h : t ∈ s.subs) :
    noteTopic s t = (s, []) := by
  rw [noteTopic_eq, if_pos h]

theorem callsOf_noteTopic (cb : Cb) (s : MemoryAscoltatore) (t : Str) :
    callsOf cb (noteTopic s t).2 = [] := by
  rw [noteTopic_obs]; split <;> simp [callsOf]

theorem unattached_noteTopic {s : MemoryAscoltatore} {cb : Cb} (h : Unattached s cb) (t : Str) :
    Unattached (noteTopic s t).1 cb := by
  obtain ⟨hev, hnt⟩ := h
  refine ⟨?_, ?_⟩
  · intro e he
    rw [noteTopic_event] at he
    split at he
    · exact hev e he
    · rcases List.mem_append.1 he with he | he
      · exact hev e he
      · obtain ⟨_, h, hh, hc, _⟩ := mem_attach he
        rw [← hc]
        exact hnt h hh
  · rw [noteTopic_onNewTopic]; exact hnt

theorem filter_listeners_unattached {s : MemoryAscoltatore} {cb : Cb} (h : Unattached s cb)
    (t : Str) : (s.listeners t).filter (fun c => decide (c = cb)) = [] := by
  rw [List.filter_eq_nil_iff]
  intro c hc
  simp only [listeners, List.mem_map, List.mem_filter] at hc
  obtain ⟨e, ⟨he, _⟩, rfl⟩ := hc
  simpa using h.1 e he

theorem publish_open {s : MemoryAscoltatore} (h : s.closed = false) (t : Str) (m : Value)
    (d : Option Nat) :
    s.publish t m d =
      ⟨(noteTopic s t).1,
       (noteTopic s t).2 ++ ((noteTopic s t).1.listeners t).map (fun cb => Obs.call cb t m) ++
         wrap d, none⟩ := by
  simp [publish, h]

theorem callsOf_publish {s : MemoryAscoltatore} (h : s.closed = false) (cb : Cb) (t : Str)
    (m : Value) (d : Option Nat) :
    callsOf cb (s.publish t m d).obs =
      (((noteTopic s t).1.listeners t).filter (fun c => decide (c = cb))).map
        (fun c => Obs.call c t m) := by
  rw [publish_open h]
  simp [callsOf_append, callsOf_wrap, callsOf_noteTopic, callsOf_map_call]

theorem subscribe_exact {s : MemoryAscoltatore} (h : s.closed = false) {t : Str}
    (ht : containsWildcard t = false) (cb : Cb) (d : Option Nat) :
    s.subscribe t cb d =
      ⟨{ (noteTopic s t).1 with event := (noteTopic s t).1.event ++ [(t, cb)] },
       (noteTopic s t).2 ++ wrap d, none⟩ := by
  simp [subscribe, h, ht]

end MemoryAscoltatore

/-! ## Lemmas on regular expressions -/

namespace MemoryAscoltatore

theorem mem_listeners {s : MemoryAscoltatore} {t : Str} {c : Cb} :
    c ∈ s.listeners t ↔ (t, c) ∈ s.event := by
  simp only [listeners, List.mem_map, List.mem_filter, decide_eq_true_eq]
  constructor
  · rintro ⟨⟨a, b⟩, ⟨he, rfl⟩, rfl⟩
    exact he
  · intro h
    exact ⟨(t, c), ⟨h, rfl⟩, rfl⟩

theorem subscribe_wildcard {s : MemoryAscoltatore} (h : s.closed = false) {t : Str}
    (ht : containsWildcard t = true) {r : RegExp}
    (hr : RegExp.compile (replaceFirst star [Char.ofNat 46, Char.ofNat 43] t) = Except.ok r)
    (cb : Cb) (d : Option Nat) :
    s.subscribe t cb d =
      ⟨{ s with fresh := s.fresh + 1,
                props := s.props.put cb ⟨s.fresh, r, cb⟩,
                event := s.event ++ (s.subs.filter (fun e => r.test e)).map (fun e => (e, cb)),
                onNewTopic := s.onNewTopic ++ [⟨s.fresh, r, cb⟩] },
       wrap d, none⟩ := by
  simp [subscribe, h, ht, hr, foldl_forEach_handler]

end MemoryAscoltatore

namespace MemoryAscoltatore

theorem subscribe_error {s : MemoryAscoltatore} (h : s.closed = false) {t : Str}
    (ht : containsWildcard t = true) {e : Err}
    (hr : RegExp.compile (replaceFirst star [Char.ofNat 46, Char.ofNat 43] t) = Except.error e)
    (cb : Cb) (d : Option Nat) :
    s.subscribe t cb d = ⟨s, [], some e⟩ := by
  simp [subscribe, h, ht, hr]

end MemoryAscoltatore

namespace MemoryAscoltatore

theorem call_closed {s : MemoryAscoltatore} (h : s.closed = true) (c : Call) :
    s.call c = ⟨s, [], some Err.closed⟩ := by
  cases c <;> simp [call, subscribe, publish, unsubscribe, h]

theorem run_closed {s : MemoryAscoltatore} (h : s.closed = true) (cs : List Call) :
    s.run cs = (s, []) := by
  induction cs with
  | nil => rfl
  | cons c cs ih => simp [run, call_closed h, ih]

end MemoryAscoltatore

namespace MQTTAscoltatore

theorem runWrappers_closed (ev : Ack) (i : Nat) (ws : List Wrapper) (a : MQTTAscoltatore) :
    (runWrappers ev i ws a).state.closed = a.closed := by
  induction ws generalizing a with
  | nil => rfl
  | cons w ws ih =>
    simp only [runWrappers]
    split
    · split
      · simp [ih]
      · rfl
    · exact ih a

theorem runOnClose_closed (ds : List (Option Nat)) (a : MQTTAscoltatore) :
    (runOnClose ds a).state.closed = a.closed := by
  induction ds generalizing a with
  | nil => rfl
  | cons d ds ih =>
    simp only [runOnClose, ih]
    split <;> rfl

theorem receive_closed (a : MQTTAscoltatore) (p : Packet) :
    (a.receive p).state.closed = a.closed := by
  unfold receive
  split
  · rfl
  · split
    · split <;> rfl
    · split <;> rfl
    · exact runWrappers_closed _ _ _ _
    · exact runWrappers_closed _ _ _ _
    · exact runOnClose_closed _ _
    · rfl

theorem step_closed {a : MQTTAscoltatore} (h : a.closed = true) (c : AStep)
    (hc : c.isCall = true) : a.step c = ⟨a, [], some Err.closed⟩ := by
  cases c <;> simp [step, subscribe, publish, unsubscribe, h] at hc ⊢
  simp [AStep.isCall] at hc

theorem step_keeps_closed {a : MQTTAscoltatore} (h : a.closed = true) (c : AStep) :
    (a.step c).state.closed = true := by
  by_cases hc : c.isCall = true
  · rw [step_closed h c hc]; exact h
  · cases c with
    | receive p => simp only [step, receive_closed, h]
    | _ => simp [AStep.isCall] at hc

theorem run_keeps_closed (cs : List AStep) {a : MQTTAscoltatore} (h : a.closed = true) :
    (a.run cs).1.closed = true := by
  induction cs generalizing a with
  | nil => exact h
  | cons c cs ih => exact ih (step_keeps_closed h c)

theorem closed_of_close {a : MQTTAscoltatore} {d : Option Nat} (h : (a.close d).raised = none) :
    (a.close d).state.closed = true := by
  unfold close at h ⊢
  split
  · assumption
  · rename_i hc
    split
    · rfl
    · simp_all

end MQTTAscoltatore

/-- C4 (post-close rejection).  In-process bus: after `close()`, whatever calls of
subscribe, publish and unsubscribe follow, each of them raises the use-after-close
error, shows nothing and leaves the whole state (registry and delivery channels
included) as `close()` left it.  Adapter: after a `close()` that returned normally,
whatever calls and packet events follow, the adapter stays closed and each call of
subscribe, publish or unsubscribe raises the use-after-close error, shows nothing
and leaves the whole state unchanged. -/
theorem post_close_rejection (s : MemoryAscoltatore) (d : Option Nat) (calls : List Call)
    (c : Call) (a : MQTTAscoltatore) (d' : Option Nat) (steps : List AStep) (ac : AStep)
    (hclose : (a.close d').raised = none) (hac : ac.isCall = true) :
    (((s.close d).state.run calls).1 = (s.close d).state ∧
      ((s.close d).state.run calls).2 = [] ∧
      ((s.close d).state.call c).raised = some Err.closed ∧
      ((s.close d).state.call c).state = (s.close d).state ∧
      ((s.close d).state.call c).obs = []) ∧
    (((a.close d').state.run steps).1.closed = true ∧
      (((a.close d').state.run steps).1.step ac).raised = some Err.closed ∧
      (((a.close d').state.run steps).1.step ac).state = ((a.close d').state.run steps).1 ∧
      (((a.close d').state.run steps).1.step ac).obs = []) := by
  have hs : (s.close d).state.closed = true := rfl
  have ha := MQTTAscoltatore.run_keeps_closed steps (MQTTAscoltatore.closed_of_close hclose)
  refine ⟨⟨?_, ?_, ?_, ?_, ?_⟩, ha, ?_, ?_, ?_⟩
  · rw [MemoryAscoltatore.run_closed hs]
  · rw [MemoryAscoltatore.run_closed hs]
  · rw [MemoryAscoltatore.call_closed hs]
  · rw [MemoryAscoltatore.call_closed hs]
  · rw [MemoryAscoltatore.call_closed hs]
  · rw [MQTTAscoltatore.step_closed ha ac hac]
  · rw [MQTTAscoltatore.step_closed ha ac hac]
  · rw [MQTTAscoltatore.step_closed ha ac hac]

/-- Witness of C4: a bus with a subscriber, and a connected adapter that receives the
transport's close event after `close()`; then a publish. -/
theorem post_close_rejection_witness :
    (MQTTAscoltatore.create.started.close none).raised = none ∧
    (AStep.publish 9 "t".toList Value.null none).isCall = true ∧
    ((((MemoryAscoltatore.create.subscribe "t".toList 1 none).state.close none).state.call
      (Call.publish "t".toList Value.null none)).raised = some Err.closed) ∧
    ((((MQTTAscoltatore.create.started.close none).state.run
      [AStep.receive Packet.close]).1.step
        (AStep.publish 9 "t".toList Value.null none)).raised = some Err.closed) :=
  have h := post_close_rejection (MemoryAscoltatore.create.subscribe "t".toList 1 none).state
    none [] (Call.publish "t".toList Value.null none) MQTTAscoltatore.create.started none
    [AStep.receive Packet.close] (AStep.publish 9 "t".toList Value.null none)
    (by decide) (by decide)
  ⟨by decide, by decide, h.1.2.2.1, h.2.2.1⟩

namespace MemoryAscoltatore

theorem foldl_detach (r : RegExp) (cb : Cb) (ts : List Str) (s : MemoryAscoltatore) :
    ts.foldl (fun acc e => detach r cb acc e) s =
      { s with event :=
          ts.foldl (fun ev e => if r.test e then removeLast ev (e, cb) else ev) s.event } := by
  induction ts generalizing s with
  | nil => rfl
  | cons t ts ih =>
    simp only [List.foldl_cons, ih]
    by_cases hm : r.test t = true
    · simp [detach, hm]
    · simp [detach, hm]

theorem unsubscribe_subs (s : MemoryAscoltatore) (t : Str) (cb : Cb) (d : Option Nat) :
    (s.unsubscribe t cb d).state.subs = s.subs := by
  unfold unsubscribe
  split
  · rfl
  · split
    · split
      · rfl
      · simp only [foldl_detach]
    · rfl

theorem newTopic_not_mem_wrap (T : Str) (d : Option Nat) : Obs.newTopic T ∉ wrap d := by
  cases d <;> simp [wrap]

theorem count_newTopic_wrap (T : Str) (d : Option Nat) :
    (wrap d).count (Obs.newTopic T) = 0 :=
  List.count_eq_zero.2 (newTopic_not_mem_wrap T d)

theorem unsubscribe_obs_count (s : MemoryAscoltatore) (t : Str) (cb : Cb) (d : Option Nat)
    (T : Str) : (s.unsubscribe t cb d).obs.count (Obs.newTopic T) = 0 := by
  unfold unsubscribe
  split
  · rfl
  · split
    · split
      · rfl
      · exact count_newTopic_wrap T d
    · exact count_newTopic_wrap T d

theorem count_noteTopic (s : MemoryAscoltatore) (t T : Str) :
    (noteTopic s t).2.count (Obs.newTopic T) =
      if t = T ∧ T ∉ s.subs then 1 else 0 := by
  rw [noteTopic_obs]
  by_cases ht : t = T
  · subst ht
    by_cases hs : t ∈ s.subs
    · simp [hs]
    · simp [hs]
  · by_cases hs : t ∈ s.subs
    · simp [hs, ht]
    · have : ¬ (T = t) := fun h => ht h.symm
      simp [hs, ht, List.count_singleton, this]

theorem mem_subs_noteTopic {s : MemoryAscoltatore} {T : Str} (t : Str) (h : T ∈ s.subs) :
    T ∈ (noteTopic s t).1.subs := by
  rw [noteTopic_subs]; split
  · exact h
  · simp [h]

theorem count_call_obs (T : Str) (l : List Cb) (t : Str) (m : Value) :
    (l.map (fun cb => Obs.call cb t m)).count (Obs.newTopic T) = 0 := by
  rw [List.count_eq_zero]
  simp

/-- What one call does about `newTopic(T)`: it keeps `T` in the registry if it was
there, emits `newTopic(T)` at most once, not at all if `T` was known, and if it emits
it then `T` is known afterwards. -/
theorem call_newTopic (s : MemoryAscoltatore) (c : Call) (T : Str) :
    (T ∈ s.subs → T ∈ (s.call c).state.subs) ∧
    (s.call c).obs.count (Obs.newTopic T) ≤ 1 ∧
    (T ∈ s.subs → (s.call c).obs.count (Obs.newTopic T) = 0) ∧
    ((s.call c).obs.count (Obs.newTopic T) ≠ 0 → T ∈ (s.call c).state.subs) := by
  cases c with
  | unsubscribe t cb d =>
    simp only [call, unsubscribe_subs, unsubscribe_obs_count]
    simp
  | publish t m d =>
    simp only [call]
    by_cases hopen : s.closed = false
    · rw [publish_open hopen]
      simp only [List.count_append, count_newTopic_wrap, count_call_obs,
        count_noteTopic, Nat.add_zero]
      refine ⟨mem_subs_noteTopic t, by split <;> simp, fun h => by simp [h], ?_⟩
      intro h
      split at h
      · rename_i h'
        rw [← h'.1]
        exact mem_noteTopic_subs s t
      · exact absurd rfl h
    · have hc : s.closed = true := by simpa using hopen
      simp [publish, hc]
  | subscribe t cb d =>
    simp only [call]
    by_cases hopen : s.closed = false
    · by_cases ht : containsWildcard t = true
      · cases hr : RegExp.compile (replaceFirst star [Char.ofNat 46, Char.ofNat 43] t) with
        | error e => rw [subscribe_error hopen ht hr]; simp
        | ok r =>
          rw [subscribe_wildcard hopen ht hr]
          simp [count_newTopic_wrap]
      · have ht' : containsWildcard t = false := by simpa using ht
        rw [subscribe_exact hopen ht']
        simp only [List.count_append, count_newTopic_wrap, count_noteTopic, Nat.add_zero]
        refine ⟨mem_subs_noteTopic t, by split <;> simp, fun h => by simp [h], ?_⟩
        intro h
        split at h
        · rename_i h'
          rw [← h'.1]
          exact mem_noteTopic_subs s t
        · exact absurd rfl h
    · have hc : s.closed = true := by simpa using hopen
      simp [subscribe, hc]

theorem run_newTopic_known (cs : List Call) (T : Str) {s : MemoryAscoltatore}
    (h : T ∈ s.subs) : (s.run cs).2.count (Obs.newTopic T) = 0 := by
  induction cs generalizing s with
  | nil => rfl
  | cons c cs ih =>
    obtain ⟨h1, _, h3, _⟩ := call_newTopic s c T
    simp only [run, List.count_append, h3 h, ih (h1 h)]

theorem run_newTopic_le (cs : List Call) (T : Str) (s : MemoryAscoltatore) :
    (s.run cs).2.count (Obs.newTopic T) ≤ 1 := by
  induction cs generalizing s with
  | nil => simp [run]
  | cons c cs ih =>
    obtain ⟨_, h2, _, h4⟩ := call_newTopic s c T
    simp only [run, List.count_append]
    by_cases h0 : (s.call c).obs.count (Obs.newTopic T) = 0
    · rw [h0]
      simpa using ih (s.call c).state
    · rw [run_newTopic_known cs T (h4 h0)]
      simpa using h2

/-- C5 (the first-seen notification fires once).  Whatever calls of subscribe, publish
and unsubscribe a bus performs, `newTopic(T)` is emitted at most once; and publishing
twice to a topic `T` that an open bus did not know emits `newTopic(T)` exactly
once. -/
theorem newTopic_once (s : MemoryAscoltatore) (T : Str) (calls : List Call) (M M' : Value)
    (d d' : Option Nat) :
    (s.run calls).2.count (Obs.newTopic T) ≤ 1 ∧
    (s.closed = false → T ∉ s.subs →
      (s.run [Call.publish T M d, Call.publish T M' d']).2.count (Obs.newTopic T) = 1) := by
  refine ⟨run_newTopic_le calls T s, ?_⟩
  intro hopen hT
  have h1 : (s.publish T M d).obs.count (Obs.newTopic T) = 1 := by
    rw [publish_open hopen]
    simp [List.count_append, count_newTopic_wrap, count_call_obs,
      count_noteTopic, hT]
  have h2 : T ∈ (s.publish T M d).state.subs := by
    rw [publish_open hopen]; exact mem_noteTopic_subs s T
  have h3 := run_newTopic_known [Call.publish T M' d'] T h2
  simp only [run, call, List.count_append, List.count_nil, Nat.add_zero] at h3 ⊢
  rw [h1, h3]

/-- Witness of C5: two publishes to `news` on a new bus. -/
theorem newTopic_once_witness :
    create.closed = false ∧ "news".toList ∉ create.subs ∧
    (create.run [Call.publish "news".toList (Value.num 1) none,
      Call.publish "news".toList (Value.num 2) none]).2.count (Obs.newTopic "news".toList) = 1 :=
  ⟨by decide, by decide,
    (newTopic_once create "news".toList [] (Value.num 1) (Value.num 2) none none).2
      (by decide) (by decide)⟩

end MemoryAscoltatore

namespace MemoryAscoltatore

theorem removeLast_append_singleton {α : Type} [DecidableEq α] (l : List α) (x : α) :
    removeLast (l ++ [x]) x = l := by
  simp [removeLast]

theorem removeLast_of_not_mem {α : Type} [DecidableEq α] {l : List α} {x : α} (h : x ∉ l) :
    removeLast l x = l := by
  have : x ∉ l.reverse := by simpa using h
  simp [removeLast, List.erase_of_not_mem this]

theorem unsubscribe_plain {s : MemoryAscoltatore} (h : s.closed = false) {cb : Cb}
    (hp : s.props.get cb = none) (t : Str) (d : Option Nat) :
    s.unsubscribe t cb d =
      ⟨{ s with event := removeLast s.event (t, cb) }, wrap d, none⟩ := by
  simp [unsubscribe, h, hp]

end MemoryAscoltatore

namespace MemoryAscoltatore

/-- C7, as amended (unsubscribe is a no-op when not subscribed).  On an open bus let
`cb` carry no stored wildcard handler and not be on the delivery channel of `P`
(it may be on the channels of other topics).  Then `unsubscribe(P, cb)` does not
raise and leaves the whole state unchanged: the registry, every delivery channel and
the first-seen listeners. -/
theorem unsubscribe_noop (s : MemoryAscoltatore) (P : Str) (cb : Cb) (d : Option Nat)
    (hopen : s.closed = false) (hprops : s.props.get cb = none) (hnot : (P, cb) ∉ s.event) :
    (s.unsubscribe P cb d).raised = none ∧ (s.unsubscribe P cb d).state = s := by
  rw [unsubscribe_plain hopen hprops]
  simp [removeLast_of_not_mem hnot]

/-- Witness of C7: callback `1` is subscribed to `kitchen` only and unsubscribes
from `hall`. -/
theorem unsubscribe_noop_witness :
    (create.subscribe "kitchen".toList 1 none).state.closed = false ∧
    (create.subscribe "kitchen".toList 1 none).state.props.get 1 = none ∧
    ("hall".toList, 1) ∉ (create.subscribe "kitchen".toList 1 none).state.event ∧
    ((create.subscribe "kitchen".toList 1 none).state.unsubscribe "hall".toList 1 none).state =
      (create.subscribe "kitchen".toList 1 none).state :=
  ⟨by decide, by decide, by decide,
    (unsubscribe_noop (create.subscribe "kitchen".toList 1 none).state "hall".toList 1 none
      (by decide) (by decide) (by decide)).2⟩

/-- Counterexample to C7 as stated: callback `1` is subscribed to `a*` and not to `b`.
`unsubscribe("b", 1)` removes its first-seen listener, and a later publish to `ab`,
which reached the callback before, no longer does. -/
theorem unsubscribe_noop_counterexample :
    (create.subscribe "a*".toList 1 none).state.closed = false ∧
    ("b".toList, 1) ∉ (create.subscribe "a*".toList 1 none).state.event ∧
    ((create.subscribe "a*".toList 1 none).state.unsubscribe "b".toList 1 none).raised = none ∧
    (create.subscribe "a*".toList 1 none).state.onNewTopic.length = 1 ∧
    ((create.subscribe "a*".toList 1 none).state.unsubscribe "b".toList 1
      none).state.onNewTopic = [] ∧
    callsOf 1 ((create.subscribe "a*".toList 1 none).state.publish "ab".toList Value.null
      none).obs = [Obs.call 1 "ab".toList Value.null] ∧
    callsOf 1 (((create.subscribe "a*".toList 1 none).state.unsubscribe "b".toList 1
      none).state.publish "ab".toList Value.null none).obs = [] := by
  decide

end MemoryAscoltatore

namespace MQTTAscoltatore

theorem mem_removeLast_of_ne {α : Type} [DecidableEq α] {l : List α} {x y : α}
    (h : x ∈ l) (hne : x ≠ y) : x ∈ removeLast l y := by
  simp only [removeLast, List.mem_reverse]
  exact (List.mem_erase_of_ne hne).2 (by simpa using h)

theorem receive_ack {a : MQTTAscoltatore} {c : Client} (h : a.client = Conn.live c)
    (ev : Ack) (i : Nat) :
    a.receive (ackPacket ev i) = runWrappers ev i c.wrappers a := by
  cases ev <;> simp [receive, ackPacket, clientObject, h]

/-- The listeners of an acknowledgement event, run on a live client: no raise; the
completions invoked are those of the entries that await the packet; every other
pending entry stays; the rest of the adapter is untouched. -/
theorem runWrappers_live (ev : Ack) (i : Nat) (ws : List Wrapper) (a : MQTTAscoltatore)
    (c : Client) (h : a.client = Conn.live c) :
    (runWrappers ev i ws a).raised = none ∧
    (runWrappers ev i ws a).obs = completions (ws.filter (fun w => w.awaits ev i)) ∧
    ∃ c', (runWrappers ev i ws a).state.client = Conn.live c' ∧
      (∀ w ∈ c.wrappers, w.awaits ev i = false → w ∈ c'.wrappers) ∧
      ((∀ w ∈ ws, w.awaits ev i = false) → (runWrappers ev i ws a).state = a) := by
  induction ws generalizing a c with
  | nil => exact ⟨rfl, rfl, c, h, fun w hw _ => hw, fun _ => rfl⟩
  | cons w ws ih =>
    by_cases hw : w.event = ev ∧ w.messageId = i
    · have hw' : w.awaits ev i = true := by simp [Wrapper.awaits, hw]
      obtain ⟨h1, h2, c', h3, h4, _⟩ := ih
        { a with client := Conn.live { c with wrappers := removeLast c.wrappers w } }
        { c with wrappers := removeLast c.wrappers w } rfl
      simp only [runWrappers, hw, and_self, if_true, h, List.filter_cons, hw', completions]
      refine ⟨h1, by rw [h2], c', h3, ?_, ?_⟩
      · intro v hv hva
        refine h4 v (mem_removeLast_of_ne hv ?_) hva
        intro hvw
        rw [hvw, hw'] at hva
        exact Bool.noConfusion hva
      · intro hall
        have := hall w (by simp)
        rw [hw'] at this
        exact Bool.noConfusion this
    · have hw' : w.awaits ev i = false := by simp [Wrapper.awaits, hw]
      obtain ⟨h1, h2, c', h3, h4, h5⟩ := ih a c h
      simp only [runWrappers, hw, if_false, List.filter_cons, hw']
      exact ⟨h1, h2, c', h3, h4, fun hall => h5 (fun v hv => hall v (by simp [hv]))⟩

/-- C8 (correlation isolation).  With a live connection: `subscribe` registers a pending
entry for a `suback` with the call's correlation id, and `unsubscribe` one for an
`unsuback`.  When an acknowledgement packet of kind `ev` with id `i` arrives, nothing
is raised, the completion callbacks invoked are exactly those of the pending entries
that await kind `ev` and id `i`, in order, and every pending entry with another id or
kind stays registered.  If no pending entry awaits the packet, no completion callback
is invoked and the adapter is unchanged. -/
theorem correlation_isolation (a : MQTTAscoltatore) (c : Client) (A : Nat) (topic : Str)
    (cb : Cb) (done : Option Nat) (ev : Ack) (i : Nat) (hopen : a.closed = false)
    (hlive : a.client = Conn.live c) :
    (∃ c1, (a.subscribe A topic cb done).state.client = Conn.live c1 ∧
      (⟨a.fresh, A, Ack.suback, done⟩ : Wrapper) ∈ c1.wrappers) ∧
    (∃ c2, (a.unsubscribe A topic cb done).state.client = Conn.live c2 ∧
      (⟨a.fresh, A, Ack.unsuback, done⟩ : Wrapper) ∈ c2.wrappers) ∧
    (a.receive (ackPacket ev i)).raised = none ∧
    (a.receive (ackPacket ev i)).obs =
      completions (c.wrappers.filter (fun w => w.awaits ev i)) ∧
    (∃ c', (a.receive (ackPacket ev i)).state.client = Conn.live c' ∧
      ∀ w ∈ c.wrappers, w.awaits ev i = false → w ∈ c'.wrappers) ∧
    ((∀ w ∈ c.wrappers, w.awaits ev i = false) →
      (a.receive (ackPacket ev i)).obs = [] ∧ (a.receive (ackPacket ev i)).state = a) := by
  obtain ⟨h1, h2, c', h3, h4, h5⟩ := runWrappers_live ev i c.wrappers a c hlive
  rw [receive_ack hlive]
  refine ⟨?_, ?_, h1, h2, ⟨c', h3, h4⟩, ?_⟩
  · simp [subscribe, hopen, hlive, wrapEvent]
  · simp [unsubscribe, hopen, hlive, wrapEvent]
  · intro hall
    refine ⟨?_, h5 hall⟩
    rw [h2, List.filter_eq_nil_iff.2 (fun w hw => by simp [hall w hw])]
    rfl

/-- Witness of C8: two subscribe calls pending on ids 5 and 6; the `suback` for 5
arrives. -/
theorem correlation_isolation_witness :
    ∃ c, ((create.started.subscribe 5 "a".toList 1 (some 50)).state.subscribe 6 "b".toList 2
        (some 60)).state.client = Conn.live c ∧
      c.wrappers = [⟨0, 5, Ack.suback, some 50⟩, ⟨1, 6, Ack.suback, some 60⟩] ∧
      (((create.started.subscribe 5 "a".toList 1 (some 50)).state.subscribe 6 "b".toList 2
        (some 60)).state.receive (ackPacket Ack.suback 5)).obs = [AObs.done 50] :=
  ⟨⟨[⟨0, 5, Ack.suback, some 50⟩, ⟨1, 6, Ack.suback, some 60⟩], [],
      [Request.connect, Request.subscribe "a".toList 5 0, Request.subscribe "b".toList 6 0]⟩,
    by decide, rfl,
    (correlation_isolation
      ((create.started.subscribe 5 "a".toList 1 (some 50)).state.subscribe 6 "b".toList 2
        (some 60)).state
      ⟨[⟨0, 5, Ack.suback, some 50⟩, ⟨1, 6, Ack.suback, some 60⟩], [],
        [Request.connect, Request.subscribe "a".toList 5 0, Request.subscribe "b".toList 6 0]⟩
      7 "c".toList 3 none Ack.suback 5 (by decide) (by decide)).2.2.2.1⟩

end MQTTAscoltatore

namespace MemoryAscoltatore

end MemoryAscoltatore

namespace MemoryAscoltatore

end MemoryAscoltatore

namespace MQTTAscoltatore

/-- C10 (wildcard translation at the wire boundary), the code at the failing input.
On a connected adapter, `subscribe("room*", cb)` hands the broker the topic `room#`,
while `unsubscribe("room*", cb)` hands it the untranslated `room*`. -/
theorem unsubscribe_sends_untranslated :
    (∃ c, (create.started.subscribe 1 "room*".toList 7 none).state.client = Conn.live c ∧
      c.sent = [Request.connect, Request.subscribe "room#".toList 1 0]) ∧
    (∃ c, ((create.started.subscribe 1 "room*".toList 7 none).state.unsubscribe 2
        "room*".toList 7 none).state.client = Conn.live c ∧
      c.sent = [Request.connect, Request.subscribe "room#".toList 1 0,
        Request.unsubscribe "room*".toList 2]) :=
  ⟨⟨_, rfl, by decide⟩, ⟨_, rfl, by decide⟩⟩

end MQTTAscoltatore

namespace MemoryAscoltatore

theorem mem_subs_call {s : MemoryAscoltatore} {T : Str} (h : T ∈ s.subs) (c : Call) :
    T ∈ (s.call c).state.subs :=
  (call_newTopic s c T).1 h

theorem mem_subs_run {T : Str} (cs : List Call) {s : MemoryAscoltatore} (h : T ∈ s.subs) :
    T ∈ (s.run cs).1.subs := by
  induction cs generalizing s with
  | nil => exact h
  | cons c cs ih => exact ih (mem_subs_call h c)

/-- C11 (registry monotonicity).  A topic that is in the registry stays in it through
every call of subscribe, publish or unsubscribe, whatever the arguments and the state,
and so through every sequence of such calls; `close` empties the registry. -/
theorem registry_monotone (s : MemoryAscoltatore) (T : Str) (c : Call) (calls : List Call)
    (d : Option Nat) (hT : T ∈ s.subs) :
    T ∈ (s.call c).state.subs ∧ T ∈ (s.run calls).1.subs ∧ (s.close d).state.subs = [] :=
  ⟨mem_subs_call hT c, mem_subs_run calls hT, rfl⟩

/-- Witness of C11: the topic `room42` survives an unsubscribe of its only subscriber
and a publish to another topic. -/
theorem registry_monotone_witness :
    "room42".toList ∈ (create.subscribe "room42".toList 1 none).state.subs ∧
    "room42".toList ∈ ((create.subscribe "room42".toList 1 none).state.run
      [Call.unsubscribe "room42".toList 1 none,
        Call.publish "hall".toList Value.null none]).1.subs :=
  ⟨by decide,
    (registry_monotone (create.subscribe "room42".toList 1 none).state "room42".toList
      (Call.unsubscribe "room42".toList 1 none)
      [Call.unsubscribe "room42".toList 1 none, Call.publish "hall".toList Value.null none]
      none (by decide)).2.1⟩

/-- C12, as amended (close releases the registry and the delivery channels).  For every
bus state, `close()` does not raise, leaves the registry empty and every delivery
channel without callbacks, moves the bus to `closed`, and emits exactly one `closed`
notification; afterwards a publish raises and invokes nobody. -/
theorem close_releases (s : MemoryAscoltatore) (d d1 : Option Nat) (T : Str) (M : Value) :
    (s.close d).raised = none ∧
    (s.close d).state.subs = [] ∧
    (s.close d).state.event = [] ∧
    (s.close d).state.listeners T = [] ∧
    (s.close d).state.closed = true ∧
    (s.close d).obs.count Obs.closed = 1 ∧
    ((s.close d).state.publish T M d1).raised = some Err.closed ∧
    ((s.close d).state.publish T M d1).obs = [] := by
  refine ⟨rfl, rfl, rfl, rfl, rfl, ?_, rfl, rfl⟩
  cases d <;> simp [close, wrap]

/-- Counterexample to C12 as stated: after a subscription to `a*`, `close()` leaves the
wildcard matcher registered as a listener for first-seen notifications. -/
theorem close_releases_counterexample :
    ((create.subscribe "a*".toList 1 none).state.close none).state.onNewTopic =
      (create.subscribe "a*".toList 1 none).state.onNewTopic ∧
    ((create.subscribe "a*".toList 1 none).state.close none).state.onNewTopic.length = 1 := by
  decide

end MemoryAscoltatore

namespace MemoryAscoltatore

end MemoryAscoltatore

namespace MQTTAscoltatore

/-- C18 (connection bring-up outcome), the code at the failing input.  On a connected
adapter a `connack` with return code 0 emits `ready`; a `connack` with return code 1
emits the error notification and keeps the connection handle, while a connection
error event emits the error notification and drops the handle. -/
theorem connack_error_keeps_handle :
    (create.started.receive (Packet.connack 0)).obs = [AObs.ready] ∧
    (create.started.receive (Packet.connack 1)).obs =
      [AObs.error (ErrorInfo.connack 1)] ∧
    (create.started.receive (Packet.connack 1)).state.client =
      Conn.live ⟨[], [], [Request.connect]⟩ ∧
    (create.started.receive (Packet.error 3)).obs = [AObs.error (ErrorInfo.transport 3)] ∧
    (create.started.receive (Packet.error 3)).state.client =
      Conn.dropped ⟨[], [], [Request.connect]⟩ := by
  decide

end MQTTAscoltatore

theorem count_removeLast_self {α : Type} [DecidableEq α] (l : List α) (x : α) :
    (removeLast l x).count x = l.count x - 1 := by
  simp [removeLast]

theorem count_removeLast_of_ne {α : Type} [DecidableEq α] {x y : α} (h : y ≠ x)
    (l : List α) : (removeLast l x).count y = l.count y := by
  simp [removeLast, List.count_erase_of_ne h]

namespace MQTTAscoltatore

end MQTTAscoltatore

namespace MQTTAscoltatore

end MQTTAscoltatore

namespace MemoryAscoltatore

theorem Props.get_put (p : Props) (c c' : Cb) (h : Handler) :
    (p.put c h).get c' = if c' = c then some h else p.get c' := by
  by_cases hc : c' = c
  · subst hc
    simp [Props.get, Props.put]
  · have hc' : ¬ c = c' := fun e => hc e.symm
    have hp : (fun a : Cb × Handler => (!decide (a.1 = c) && decide (a.1 = c'))) =
        (fun a => decide (a.1 = c')) := by
      funext a
      by_cases h1 : a.1 = c'
      · simp [h1, hc]
      · simp [h1]
    simp [Props.get, Props.put, hc, hc', List.find?_filter, hp]

theorem count_attach (hs : List Handler) (t e : Str) (cb : Cb) :
    (attach hs t).count (e, cb) =
      if e = t then
        ((hs.filter (fun h => decide (h.callback = cb))).filter
          (fun h => h.regexp.test t)).length
      else 0 := by
  induction hs with
  | nil => simp [attach]
  | cons h hs ih =>
    simp only [attach] at ih
    by_cases hm : h.regexp.test t = true
    · by_cases hc : h.callback = cb
      · by_cases het : e = t
        · subst het
          simp [attach, List.filter_cons, hm, hc] at ih ⊢
          exact ih
        · have : ¬ t = e := fun h' => het h'.symm
          simp [attach, List.filter_cons, hm, hc, het, List.count_cons, this] at ih ⊢
          exact ih
      · by_cases het : e = t
        · subst het
          simp [attach, List.filter_cons, hm, hc, List.count_cons] at ih ⊢
          exact ih
        · have : ¬ t = e := fun h' => het h'.symm
          simp [attach, List.filter_cons, hm, hc, het, List.count_cons, this] at ih ⊢
          exact ih
    · by_cases hc : h.callback = cb
      · simp [attach, List.filter_cons, hm, hc] at ih ⊢
        exact ih
      · simp [attach, List.filter_cons, hm, hc] at ih ⊢
        exact ih

end MemoryAscoltatore

theorem count_beq_irrel {α : Type} [DecidableEq α] (i : BEq α) [@LawfulBEq α i] (x : α)
    (l : List α) : @List.count α i x l = @List.count α instBEqOfDecidableEq x l := by
  induction l with
  | nil => rfl
  | cons a l ih =>
    by_cases h : a = x
    · subst h
      rw [@List.count_cons_self α i, @List.count_cons_self α instBEqOfDecidableEq, ih]
    · rw [@List.count_cons_of_ne α i _ _ _ (Ne.symm h),
        @List.count_cons_of_ne α instBEqOfDecidableEq _ _ _ (Ne.symm h), ih]

theorem count_pair_removeLast_of_ne {x y : Str × Cb} (h : y ≠ x) (l : List (Str × Cb)) :
    (removeLast l x).count y = l.count y := by
  rw [count_beq_irrel instBEqProd y, count_beq_irrel instBEqProd y]
  exact count_removeLast_of_ne h l

theorem count_pair_removeLast_self (x : Str × Cb) (l : List (Str × Cb)) :
    (removeLast l x).count x = l.count x - 1 := by
  rw [count_beq_irrel instBEqProd x, count_beq_irrel instBEqProd x]
  exact count_removeLast_self l x

namespace MemoryAscoltatore

theorem handlersOf_noteTopic (s : MemoryAscoltatore) (t : Str) (cb : Cb) :
    (noteTopic s t).1.handlersOf cb = s.handlersOf cb := by
  simp [handlersOf, noteTopic_onNewTopic]

theorem tidy_noteTopic {s : MemoryAscoltatore} {cb : Cb} (h : Tidy s cb) (t : Str) :
    Tidy (noteTopic s t).1 cb := by
  obtain ⟨hopen, hnd, hall⟩ := h
  by_cases ht : t ∈ s.subs
  · rw [noteTopic_of_mem ht]; exact ⟨hopen, hnd, hall⟩
  · refine ⟨by rw [noteTopic_closed]; exact hopen, ?_, fun e => ?_⟩
    · rw [noteTopic_subs, if_neg ht]
      exact List.Nodup.append hnd (List.nodup_singleton t) (by simpa using ht)
    · have hm : (noteTopic s t).1.matching cb e = s.matching cb e := by
        simp [matching, handlersOf_noteTopic]
      rw [hm, noteTopic_event, noteTopic_subs, if_neg ht, if_neg ht, List.count_append,
        count_attach, hall e]
      by_cases het : e = t
      · subst het
        simp [ht, matching, handlersOf]
      · simp [het]

theorem count_forEach (cb c : Cb) (p : Str → Bool) (e : Str) (l : List Str) (h : l.Nodup) :
    (((l.filter p).map (fun e' => (e', c))).count (e, cb)) =
      if c = cb ∧ e ∈ l ∧ p e = true then 1 else 0 := by
  induction l with
  | nil => simp
  | cons a l ih =>
    have hnd := List.nodup_cons.1 h
    have ih' := ih hnd.2
    by_cases hc : c = cb
    · subst hc
      by_cases hae : a = e
      · subst hae
        have hnot : ¬ (c = c ∧ a ∈ l ∧ p a = true) := fun h => hnd.1 h.2.1
        rw [if_neg hnot] at ih'
        by_cases hp : p a = true
        · simp [List.filter_cons, hp, ih']
        · simp [List.filter_cons, hp, ih']
      · have hea : ¬ e = a := fun h => hae h.symm
        by_cases hp : p a = true
        · simp [List.filter_cons, hp, List.count_cons, hae, hea, ih']
        · simp [List.filter_cons, hp, hea, ih']
    · have hnot : ∀ l' : List Str, ¬ (c = cb ∧ e ∈ l' ∧ p e = true) := fun _ h => hc h.1
      rw [if_neg (hnot _)] at ih' ⊢
      by_cases hp : p a = true
      · simp [List.filter_cons, hp, List.count_cons, hc, ih']
      · simp [List.filter_cons, hp, ih']

/-- A wildcard subscription of any callback `c` keeps the bus tidy for `cb`. -/
theorem tidy_subscribe_wildcard {s : MemoryAscoltatore} {cb : Cb} (h : Tidy s cb) {t : Str}
    (ht : containsWildcard t = true) {r : RegExp}
    (hr : RegExp.compile (replaceFirst star [Char.ofNat 46, Char.ofNat 43] t) = Except.ok r)
    (c : Cb) (d : Option Nat) :
    Tidy (s.subscribe t c d).state cb ∧
    (s.subscribe t c d).state.handlersOf cb =
      s.handlersOf cb ++ if c = cb then [⟨s.fresh, r, c⟩] else [] := by
  rw [subscribe_wildcard h.1 ht hr]
  refine ⟨⟨h.1, h.2.1, fun e => ?_⟩, ?_⟩
  · simp only [matching, handlersOf, List.count_append, h.2.2 e,
      count_forEach cb c (fun e => r.test e) e s.subs h.2.1, List.filter_append,
      List.length_append]
    by_cases hc : c = cb
    · by_cases he : e ∈ s.subs
      · by_cases hm : r.test e = true
        · simp [hc, he, hm]
        · simp [hc, he, hm]
      · simp [hc, he]
    · by_cases he : e ∈ s.subs
      · simp [hc, he]
      · simp [hc, he]
  · by_cases hc : c = cb
    · simp [handlersOf, List.filter_append, hc]
    · simp [handlersOf, List.filter_append, hc]

end MemoryAscoltatore

namespace MemoryAscoltatore

end MemoryAscoltatore

namespace MemoryAscoltatore

theorem count_foldl_detach_self (cb : Cb) (r : RegExp) (e : Str) (ts : List Str)
    (hnd : ts.Nodup) (ev : List (Str × Cb)) :
    (ts.foldl (fun ev e' => if r.test e' then removeLast ev (e', cb) else ev) ev).count
        (e, cb) =
      ev.count (e, cb) - if e ∈ ts ∧ r.test e = true then 1 else 0 := by
  induction ts generalizing ev with
  | nil => simp
  | cons t ts ih =>
    have hnd' := List.nodup_cons.1 hnd
    simp only [List.foldl_cons, ih hnd'.2]
    by_cases hte : t = e
    · subst hte
      have hnot : ¬ (t ∈ ts ∧ r.test t = true) := fun h => hnd'.1 h.1
      rw [if_neg hnot]
      by_cases hm : r.test t = true
      · simp [hm, count_pair_removeLast_self]
      · simp [hm]
    · have hne : ((e, cb) : Str × Cb) ≠ (t, cb) := fun h => hte (Prod.mk.inj h).1.symm
      have het : ¬ e = t := fun h => hte h.symm
      have hcount : (if r.test t = true then removeLast ev (t, cb) else ev).count (e, cb) =
          ev.count (e, cb) := by
        split
        · exact count_pair_removeLast_of_ne hne ev
        · rfl
      rw [hcount]
      simp [het]

theorem tidy_of_unattached {s : MemoryAscoltatore} {cb : Cb} (hopen : s.closed = false)
    (hnd : s.subs.Nodup) (hcb : Unattached s cb) :
    Tidy s cb ∧ s.handlersOf cb = [] := by
  have hH : s.handlersOf cb = [] := by
    simp only [handlersOf, List.filter_eq_nil_iff, decide_eq_true_eq]
    exact fun h hh => hcb.2 h hh
  refine ⟨⟨hopen, hnd, fun e => ?_⟩, hH⟩
  have h0 : s.event.count (e, cb) = 0 :=
    List.count_eq_zero.2 (fun h => hcb.1 _ h rfl)
  rw [h0]
  simp [matching, hH]

theorem run_publishes {cb : Cb} (cs : List Call) (hcs : ∀ c ∈ cs, c.isPublish = true)
    {s : MemoryAscoltatore} (hT : Tidy s cb) :
    Tidy (s.run cs).1 cb ∧ (s.run cs).1.onNewTopic = s.onNewTopic ∧
      (s.run cs).1.props = s.props := by
  induction cs generalizing s with
  | nil => exact ⟨hT, rfl, rfl⟩
  | cons c cs ih =>
    cases c with
    | publish t m d =>
      have h1 : Tidy (s.call (Call.publish t m d)).state cb := by
        simp only [call, publish_open hT.1]
        exact tidy_noteTopic hT t
      obtain ⟨h2, h3, h4⟩ := ih (fun c' hc' => hcs c' (by simp [hc'])) h1
      refine ⟨h2, ?_, ?_⟩
      · simp only [run] at h3 ⊢
        rw [h3]
        simp only [call, publish_open hT.1, noteTopic_onNewTopic]
      · simp only [run] at h4 ⊢
        rw [h4]
        simp only [call, publish_open hT.1, noteTopic_props]
    | subscribe t c d =>
      have := hcs (Call.subscribe t c d) (by simp)
      simp [Call.isPublish] at this
    | unsubscribe t c d =>
      have := hcs (Call.unsubscribe t c d) (by simp)
      simp [Call.isPublish] at this

theorem unattached_run_publishes {cb : Cb} (cs : List Call)
    (hcs : ∀ c ∈ cs, c.isPublish = true) {s : MemoryAscoltatore} (hopen : s.closed = false)
    (hcb : Unattached s cb) : callsOf cb (s.run cs).2 = [] := by
  induction cs generalizing s with
  | nil => rfl
  | cons c cs ih =>
    cases c with
    | publish t m d =>
      have hu := unattached_noteTopic hcb t
      have h1 : callsOf cb (s.call (Call.publish t m d)).obs = [] := by
        simp only [call]
        rw [callsOf_publish hopen, filter_listeners_unattached hu]
        rfl
      have h2 : Unattached (s.call (Call.publish t m d)).state cb := by
        simp only [call, publish_open hopen]
        exact hu
      have h3 : (s.call (Call.publish t m d)).state.closed = false := by
        simp only [call, publish_open hopen, noteTopic_closed]
        exact hopen
      simp only [run, callsOf_append, h1, ih (fun c' hc' => hcs c' (by simp [hc'])) h3 h2,
        List.append_nil]
    | subscribe t c d =>
      have := hcs (Call.subscribe t c d) (by simp)
      simp [Call.isPublish] at this
    | unsubscribe t c d =>
      have := hcs (Call.unsubscribe t c d) (by simp)
      simp [Call.isPublish] at this

/-- C13 (wildcard unsubscribe).  On an open bus whose registry has no duplicates, let
`cb` be attached nowhere and subscribe it to a wildcard pattern `P` that compiles.
After any publishes, `unsubscribe(P, cb)` does not raise and leaves `cb` attached
nowhere: no first-seen listener delivers to it and it is on no delivery channel.  No
later publish, to any topic, invokes `cb`. -/
theorem wildcard_unsubscribe (s : MemoryAscoltatore) (P : Str) (r : RegExp) (cb : Cb)
    (d d1 : Option Nat) (pubs later : List Call) (T : Str)
    (hopen : s.closed = false) (hnd : s.subs.Nodup) (hcb : Unattached s cb)
    (hP : containsWildcard P = true)
    (hr : RegExp.compile (replaceFirst star [Char.ofNat 46, Char.ofNat 43] P) = Except.ok r)
    (hpubs : ∀ c ∈ pubs, c.isPublish = true) (hlater : ∀ c ∈ later, c.isPublish = true) :
    (s.subscribe P cb d).raised = none ∧
    (((s.subscribe P cb d).state.run pubs).1.unsubscribe P cb d1).raised = none ∧
    Unattached (((s.subscribe P cb d).state.run pubs).1.unsubscribe P cb d1).state cb ∧
    cb ∉ (((s.subscribe P cb d).state.run pubs).1.unsubscribe P cb d1).state.listeners T ∧
    callsOf cb
      ((((s.subscribe P cb d).state.run pubs).1.unsubscribe P cb d1).state.run later).2 =
      [] := by
  obtain ⟨h1, h2⟩ := tidy_of_unattached hopen hnd hcb
  obtain ⟨h3, h4⟩ := tidy_subscribe_wildcard h1 hP hr cb d
  obtain ⟨h5, h6, h7⟩ := run_publishes pubs hpubs h3
  have hnt : ((s.subscribe P cb d).state.run pubs).1.onNewTopic =
      s.onNewTopic ++ [⟨s.fresh, r, cb⟩] := by
    rw [h6, subscribe_wildcard hopen hP hr]
  have hprops : ((s.subscribe P cb d).state.run pubs).1.props.get cb =
      some ⟨s.fresh, r, cb⟩ := by
    rw [h7, subscribe_wildcard hopen hP hr]
    simp [Props.get_put]
  have hH : ((s.subscribe P cb d).state.run pubs).1.handlersOf cb = [⟨s.fresh, r, cb⟩] := by
    simp only [handlersOf, hnt, List.filter_append]
    have := h2
    simp only [handlersOf] at this
    simp [this]
  have hstate : (((s.subscribe P cb d).state.run pubs).1.unsubscribe P cb d1) =
      ⟨{ ((s.subscribe P cb d).state.run pubs).1 with
          onNewTopic := s.onNewTopic,
          event := ((s.subscribe P cb d).state.run pubs).1.subs.foldl
            (fun ev e => if r.test e then removeLast ev (e, cb) else ev)
            ((s.subscribe P cb d).state.run pubs).1.event },
        wrap d1, none⟩ := by
    simp only [unsubscribe, h5.1, hprops, hr, Bool.false_eq_true, if_false, foldl_detach, hnt,
      removeLast_append_singleton]
  have hun : Unattached
      (((s.subscribe P cb d).state.run pubs).1.unsubscribe P cb d1).state cb := by
    rw [hstate]
    refine ⟨?_, hcb.2⟩
    intro x hx hx2
    obtain ⟨e, c⟩ := x
    have hx2' : c = cb := hx2
    rw [hx2'] at hx
    have hc := count_foldl_detach_self cb r e _ h5.2.1
      ((s.subscribe P cb d).state.run pubs).1.event
    rw [h5.2.2 e] at hc
    have hz : (((s.subscribe P cb d).state.run pubs).1.subs.foldl
        (fun ev e' => if r.test e' then removeLast ev (e', cb) else ev)
        ((s.subscribe P cb d).state.run pubs).1.event).count (e, cb) = 0 := by
      rw [hc]
      simp only [matching, hH]
      by_cases he : e ∈ ((s.subscribe P cb d).state.run pubs).1.subs
      · by_cases hm : r.test e = true
        · simp [he, hm]
        · simp [he, hm]
      · simp [he]
    exact List.count_eq_zero.1 hz hx
  have hopen' : (((s.subscribe P cb d).state.run pubs).1.unsubscribe P cb d1).state.closed =
      false := by
    rw [hstate]; exact h5.1
  refine ⟨by rw [subscribe_wildcard hopen hP hr], by rw [hstate], hun, ?_,
    unattached_run_publishes later hlater hopen' hun⟩
  intro hmem
  exact hun.1 _ (mem_listeners.1 hmem) rfl

/-- Witness of C13: callback `1` subscribes to `room*` on a bus that knows `room1`, two
topics are published, and it unsubscribes; later publishes do not reach it. -/
theorem wildcard_unsubscribe_witness :
    (create.publish "room1".toList Value.null none).state.closed = false ∧
    (create.publish "room1".toList Value.null none).state.subs.Nodup ∧
    Unattached (create.publish "room1".toList Value.null none).state 1 ∧
    containsWildcard "room*".toList = true ∧
    (∀ c ∈ [Call.publish "room2".toList Value.null none,
      Call.publish "hall".toList Value.null none], c.isPublish = true) ∧
    (∀ c ∈ [Call.publish "room1".toList Value.null none,
      Call.publish "room3".toList Value.null none], c.isPublish = true) ∧
    callsOf 1
      ((((((create.publish "room1".toList Value.null none).state.subscribe "room*".toList 1
        none).state.run [Call.publish "room2".toList Value.null none,
          Call.publish "hall".toList Value.null none]).1.unsubscribe "room*".toList 1
            none).state.run [Call.publish "room1".toList Value.null none,
              Call.publish "room3".toList Value.null none]).2) = [] :=
  ⟨by decide, by decide, by decide, by decide, by decide, by decide,
    (wildcard_unsubscribe (create.publish "room1".toList Value.null none).state
      "room*".toList (plainTerms "room".toList ++ [Term.mk Atom.any Quant.plus]) 1 none none
      [Call.publish "room2".toList Value.null none, Call.publish "hall".toList Value.null none]
      [Call.publish "room1".toList Value.null none, Call.publish "room3".toList Value.null none]
      "room1".toList (by decide) (by decide) (by decide) (by decide) rfl (by decide)
      (by decide)).2.2.2.2⟩

end MemoryAscoltatore

end Ascoltatori
